import Mathlib

/-!
Shallow embedding of the stock-dashboard program (src/app.py) and proofs of
the specification claims about it.

Modelling conventions:
* A pandas DataFrame of quote rows / history bars is a Lean `List` of records;
  a generic labelled DataFrame (for the column-rename step) is a list of column
  labels plus a list of rows.
* Numeric cells are `ℚ` (the program does exact row plumbing and rolling means;
  no float-specific behaviour is claimed).
* The provider (akshare) is a parameter of type `Except String (List _)`:
  `Except.error e` models the provider call raising an exception with message
  `e`, `Except.ok rows` models a successful call returning `rows`.
* Streamlit side effects (st.error / st.warning / st.info / chart and metric
  rendering) and provider invocations are recorded as an `Effect` trace, so
  that control-flow claims about "what is shown / what is called" are
  statements about the trace.
* `datetime` values are proleptic-Gregorian `Date` records; `timedelta`
  subtraction of `n` days is `n` iterations of `prevDay`; `strftime("%Y%m%d")`
  is the compact numeral `year*10000 + month*100 + day`.
-/

namespace GiminiStock

/-! ### Calendar model (datetime / timedelta / strftime) -/

/-- A proleptic Gregorian calendar date, as used by Python `datetime.date`. -/
structure Date where
  year : ℕ
  month : ℕ
  day : ℕ
  deriving DecidableEq, Repr

/-- Gregorian leap-year rule. -/
def isLeapYear (y : ℕ) : Bool :=
  (y % 4 == 0 && y % 100 != 0) || y % 400 == 0

/-- Number of days in a month of a given year. -/
def daysInMonth (y m : ℕ) : ℕ :=
  if m = 2 then (if isLeapYear y then 29 else 28)
  else if m = 4 ∨ m = 6 ∨ m = 9 ∨ m = 11 then 30
  else 31

/-- A calendar-valid date: month in 1..12 and day in 1..daysInMonth. -/
def validDate (d : Date) : Prop :=
  1 ≤ d.month ∧ d.month ≤ 12 ∧ 1 ≤ d.day ∧ d.day ≤ daysInMonth d.year d.month

instance : DecidablePred validDate := fun d => by
  unfold validDate; infer_instance

/-- The calendar day before `d` (one step of `datetime - timedelta(days=1)`). -/
def prevDay (d : Date) : Date :=
  if 1 < d.day then ⟨d.year, d.month, d.day - 1⟩
  else if 1 < d.month then ⟨d.year, d.month - 1, daysInMonth d.year (d.month - 1)⟩
  else ⟨d.year - 1, 12, 31⟩

/-- The calendar day after `d`. -/
def nextDay (d : Date) : Date :=
  if d.day < daysInMonth d.year d.month then ⟨d.year, d.month, d.day + 1⟩
  else if d.month < 12 then ⟨d.year, d.month + 1, 1⟩
  else ⟨d.year + 1, 1, 1⟩

/-- The compact 8-digit date numeral produced by `strftime("%Y%m%d")`,
read as a natural number `yyyymmdd`. -/
def encodeDate (d : Date) : ℕ :=
  d.year * 10000 + d.month * 100 + d.day

/-- Models line 98 of src/app.py:
`start_dt = (datetime.now() - timedelta(days=days_back)).strftime("%Y%m%d")`. -/
def startDt (now : Date) (daysBack : ℕ) : ℕ :=
  encodeDate ((prevDay)^[daysBack] now)

/-- Models line 99 of src/app.py: `end_dt = datetime.now().strftime("%Y%m%d")`. -/
def endDt (now : Date) : ℕ :=
  encodeDate now

/-! ### Date-string parsing (pd.to_datetime on ISO `YYYY-MM-DD` strings) -/

/-- Value of one decimal digit character, `none` if not a digit. -/
def charDigit (c : Char) : Option ℕ :=
  if 48 ≤ c.toNat ∧ c.toNat ≤ 57 then some (c.toNat - 48) else none

/-- Accumulate the decimal value of a digit sequence; fails on a non-digit. -/
def digitsValAux : Option ℕ → List Char → Option ℕ
  | acc, [] => acc
  | acc, c :: rest =>
    match acc, charDigit c with
    | some n, some d => digitsValAux (some (n * 10 + d)) rest
    | _, _ => none

/-- Decimal value of a non-empty digit string. -/
def digitsVal (cs : List Char) : Option ℕ :=
  match cs with
  | [] => none
  | _ => digitsValAux (some 0) cs

/-- Split a character list at the character `-` (dash-separated fields). -/
def splitDash : List Char → List (List Char)
  | [] => [[]]
  | c :: rest =>
    let r := splitDash rest
    if c = '-' then [] :: r
    else
      match r with
      | [] => [[c]]
      | f :: fs => (c :: f) :: fs

/-- Models `pd.to_datetime` on the provider's date strings, restricted to the
ISO `YYYY-MM-DD` form the provider emits: parse the three dash-separated
decimal fields and reject (return `none`, i.e. raise) anything unparseable or
calendar-invalid. -/
def parseDate (s : String) : Option Date :=
  match (splitDash s.data).map digitsVal with
  | [some y, some m, some d] =>
    if validDate ⟨y, m, d⟩ then some ⟨y, m, d⟩ else none
  | _ => none

/-! ### Data model: quote rows and history bars -/

/-- One row of the full-market realtime snapshot returned by
`ak.stock_zh_a_spot_em()`, with the fields the program reads
(代码, 名称, 最新价, 涨跌额, 涨跌幅, 最高, 最低, 成交量, 成交额). -/
structure QuoteRow where
  code : String
  name : String
  last : ℚ
  change : ℚ
  pct : ℚ
  high : ℚ
  low : ℚ
  volume : ℚ
  amount : ℚ
  deriving DecidableEq, Repr

/-- One raw history bar as returned by `ak.stock_zh_a_hist`, carrying the
provider's field labels 日期/开盘/收盘/最高/最低/成交量 (date as a string). -/
structure RawBar where
  rawDate : String
  rawOpen : ℚ
  rawClose : ℚ
  rawHigh : ℚ
  rawLow : ℚ
  rawVolume : ℚ
  deriving DecidableEq, Repr

/-- One normalized history bar after the rename to the canonical schema
Date/Open/Close/High/Low/Volume and the parse of the date column. -/
structure Bar where
  Date : GiminiStock.Date
  Open : ℚ
  Close : ℚ
  High : ℚ
  Low : ℚ
  Volume : ℚ
  deriving DecidableEq, Repr

/-- A normalized bar together with the two derived moving-average fields
(columns MA5 and MA20 added at lines 107-108 of src/app.py). -/
structure BarMA where
  bar : Bar
  ma5 : Option ℚ
  ma20 : Option ℚ
  deriving DecidableEq, Repr

/-! ### Effect trace (streamlit calls and provider invocations) -/

/-- Observable actions of one page run: provider invocations and the
streamlit rendering calls the program makes. -/
inductive Effect where
  | fetchQuoteCall : Effect
  | fetchHistoryCall : Effect
  | errorMsg : String → Effect
  | warningMsg : Effect
  | infoMsg : Effect
  | titleMsg : Effect
  | metricsRender : Effect
  | subheaderMsg : Effect
  | chartRender : Effect
  | tableRender : Effect
  deriving DecidableEq, Repr

/-! ### Quote Fetcher (get_realtime_price, lines 21-35) -/

/-- Models `get_realtime_price`: on a provider exception, show an error and
return `None`; otherwise filter the snapshot to rows whose 代码 equals the
input and return the first such row (`iloc[0]`), or `None` if none match.
The first component is the returned value, the second the effect trace of
the call body. -/
def getRealtimePrice (provider : Except String (List QuoteRow)) (code : String) :
    Option QuoteRow × List Effect :=
  match provider with
  | Except.error e => (none, [Effect.errorMsg e])
  | Except.ok df =>
    let stockInfo := df.filter (fun r => r.code == code)
    (stockInfo.head?, [])

/-! ### History Normalizer (get_history_data, lines 37-52) -/

/-- The rename of a raw bar's provider labels to the canonical record plus the
`pd.to_datetime` parse of its date field; `none` models the parse raising. -/
def parseRawBar (r : RawBar) : Option Bar :=
  match parseDate r.rawDate with
  | some d => some ⟨d, r.rawOpen, r.rawClose, r.rawHigh, r.rawLow, r.rawVolume⟩
  | none => none

/-- Column-wise `pd.to_datetime`: all rows parse, or the whole conversion
raises (`none`). -/
def parseAll : List RawBar → Option (List Bar)
  | [] => some []
  | r :: rest =>
    match parseRawBar r, parseAll rest with
    | some b, some bs => some (b :: bs)
    | _, _ => none

/-- Models `get_history_data`: on any exception inside the `try` block
(provider raising, or an unparseable date) show an error and return `None`;
otherwise return the renamed and date-parsed bars in provider order. -/
def getHistoryData (provider : Except String (List RawBar)) :
    Option (List Bar) × List Effect :=
  match provider with
  | Except.error e => (none, [Effect.errorMsg e])
  | Except.ok df =>
    match parseAll df with
    | some bars => (some bars, [])
    | none => (none, [Effect.errorMsg "date parse failed"])

/-! ### Rolling mean (pandas `Series.rolling(window=w).mean()`) -/

/-- The last `w` elements of a list (the trailing window). -/
def lastWindow (w : ℕ) (xs : List ℚ) : List ℚ :=
  xs.drop (xs.length - w)

/-- Walk the series keeping the prefix seen so far (`acc`); at each element
emit the mean of the trailing window of width `w` over the extended prefix,
or `none` while fewer than `w` observations exist (pandas' default
`min_periods = window`). -/
def rollingMeanGo (w : ℕ) (acc : List ℚ) : List ℚ → List (Option ℚ)
  | [] => []
  | x :: rest =>
    let acc2 := acc ++ [x]
    (if w ≤ acc2.length then some ((lastWindow w acc2).sum / (w : ℚ)) else none)
      :: rollingMeanGo w acc2 rest

/-- Models `xs.rolling(window=w).mean()` on a series `xs`. -/
def rollingMean (w : ℕ) (xs : List ℚ) : List (Option ℚ) :=
  rollingMeanGo w [] xs

/-- Models lines 107-108 of src/app.py: attach the MA5 and MA20 columns,
computed as rolling means of the Close column, to the bars positionally. -/
def addMovingAverages (bars : List Bar) : List BarMA :=
  let closes := bars.map Bar.Close
  (bars.zip ((rollingMean 5 closes).zip (rollingMean 20 closes))).map
    (fun p => ⟨p.1, p.2.1, p.2.2⟩)

/-- The spec's formula for the window mean at position `i` and window `w`
(stated from the spec's words, for comparison with the code's rolling mean):
the arithmetic mean — sum divided by length — of the closes at positions
`i-w+1` through `i`. -/
def specWindowMean (closes : List ℚ) (w i : ℕ) : ℚ :=
  (((closes.drop (i + 1 - w)).take w).sum) /
    ((((closes.drop (i + 1 - w)).take w).length : ℕ) : ℚ)

/-! ### Labelled DataFrame and the column rename (lines 46-47) -/

/-- A labelled table: column labels and rows of cells. -/
structure DataFrame (α : Type) where
  cols : List String
  rows : List (List α)
  deriving DecidableEq, Repr

/-- The mapping passed to `df.rename(columns=...)` at lines 46-47, extended as
pandas does: labels outside the dictionary map to themselves. -/
def renameMap (k : String) : String :=
  if k = "日期" then "Date"
  else if k = "开盘" then "Open"
  else if k = "收盘" then "Close"
  else if k = "最高" then "High"
  else if k = "最低" then "Low"
  else if k = "成交量" then "Volume"
  else k

/-- The six provider labels renamed at lines 46-47. -/
def renamedLabels : List String :=
  ["日期", "开盘", "收盘", "最高", "最低", "成交量"]

/-- Models `df.rename(columns={...})`: relabel the columns through
`renameMap`, leaving every cell untouched. -/
def renameColumns {α : Type} (df : DataFrame α) : DataFrame α :=
  ⟨df.cols.map renameMap, df.rows⟩

/-! ### Main page control flow (lines 66-146) -/

/-- Models the main page logic: with an empty identifier only an info prompt
is shown; otherwise the quote is fetched, and on a hit the metrics are
rendered and the history is fetched and (when non-empty) charted, while on a
miss only a warning is shown. The result is the ordered effect trace of the
run. -/
def mainPage (stockCode : String)
    (quoteProvider : Except String (List QuoteRow))
    (histProvider : Except String (List RawBar)) : List Effect :=
  if stockCode ≠ "" then
    let q := getRealtimePrice quoteProvider stockCode
    (Effect.fetchQuoteCall :: q.2) ++
      (match q.1 with
       | some _ =>
         [Effect.titleMsg, Effect.metricsRender] ++
           (let h := getHistoryData histProvider
            (Effect.fetchHistoryCall :: h.2) ++
              (match h.1 with
               | some bars =>
                 if bars.isEmpty then []
                 else [Effect.subheaderMsg, Effect.chartRender, Effect.tableRender]
               | none => []))
       | none => [Effect.warningMsg])
  else [Effect.infoMsg]

/-! ### Helper lemmas -/

/-- Filtering by code and taking the head yields the unique matching row. -/
theorem filter_code_head_eq (rows : List QuoteRow) (c : String) (row : QuoteRow)
    (hmem : row ∈ rows) (hcode : row.code = c)
    (huniq : ∀ r ∈ rows, r.code = c → r = row) :
    (rows.filter (fun r => r.code == c)).head? = some row := by
  induction rows with
  | nil => cases hmem
  | cons r0 rest ih =>
    by_cases h0 : r0.code = c
    · have heq : r0 = row := huniq r0 (List.mem_cons_self r0 rest) h0
      subst heq
      simp [List.filter_cons, h0]
    · have hmem' : row ∈ rest := by
        rcases List.mem_cons.mp hmem with h | h
        · exact absurd (h ▸ hcode) h0
        · exact h
      have := ih hmem' (fun r hr hc => huniq r (List.mem_cons_of_mem _ hr) hc)
      simpa [List.filter_cons, h0] using this

/-- Filtering by a code matching no row yields the empty list. -/
theorem filter_code_eq_nil (rows : List QuoteRow) (c : String)
    (h : ∀ r ∈ rows, r.code ≠ c) :
    rows.filter (fun r => r.code == c) = [] := by
  induction rows with
  | nil => rfl
  | cons r0 rest ih =>
    have h0 : r0.code ≠ c := h r0 (List.mem_cons_self r0 rest)
    simp [List.filter_cons, h0, ih (fun r hr => h r (List.mem_cons_of_mem _ hr))]

/-! ### Claim C2 -/

/-- C2 counterexample: the claim says NotFound and FetchFailed are
distinguishable from the returned value, but `get_realtime_price` returns the
same value `None` both when the provider raises and when the snapshot has no
matching row — at this concrete input the two returned values coincide. -/
theorem c2_counterexample :
    (getRealtimePrice (Except.error "network down") "600519").1 = none ∧
    (getRealtimePrice (Except.ok []) "600519").1 = none ∧
    (getRealtimePrice (Except.error "network down") "600519").1 =
      (getRealtimePrice (Except.ok []) "600519").1 :=
  ⟨rfl, rfl, rfl⟩

/-- C2 amended: NotFound and FetchFailed both surface to the caller as the
same returned value `None`, so they are not distinguishable from the returned
value; they differ only in the side-effect trace — the FetchFailed path
additionally renders an error message while the NotFound path renders
nothing. -/
theorem c2_amended (c e : String) (rows : List QuoteRow)
    (h : ∀ r ∈ rows, r.code ≠ c) :
    (getRealtimePrice (Except.error e) c).1 = (getRealtimePrice (Except.ok rows) c).1 ∧
    getRealtimePrice (Except.error e) c = (none, [Effect.errorMsg e]) ∧
    getRealtimePrice (Except.ok rows) c = (none, []) ∧
    [Effect.errorMsg e] ≠ ([] : List Effect) := by
  have hfil := filter_code_eq_nil rows c h
  refine ⟨?_, rfl, ?_, by simp⟩
  · simp [getRealtimePrice, hfil]
  · simp [getRealtimePrice, hfil]

/-- Witness for `c2_amended` at a concrete empty snapshot. -/
theorem c2_amended_witness :
    (getRealtimePrice (Except.error "boom") "600519").1 =
      (getRealtimePrice (Except.ok []) "600519").1 ∧
    getRealtimePrice (Except.error "boom") "600519" =
      (none, [Effect.errorMsg "boom"]) ∧
    getRealtimePrice (Except.ok []) "600519" = (none, []) ∧
    [Effect.errorMsg "boom"] ≠ ([] : List Effect) :=
  c2_amended "600519" "boom" [] (by simp)

/-! ### Claim C3 -/

/-- C3: with identifiers unique in the snapshot, `get_realtime_price` returns
exactly the row whose 代码 equals the input when one exists, and `None`
(NotFound) when no row matches. -/
theorem c3_fetch_quote (rows : List QuoteRow) (c : String) (row : QuoteRow)
    (hmem : row ∈ rows) (hcode : row.code = c)
    (huniq : ∀ r ∈ rows, r.code = c → r = row) :
    (getRealtimePrice (Except.ok rows) c).1 = some row ∧
    ∀ (rows2 : List QuoteRow) (c2 : String), (∀ r ∈ rows2, r.code ≠ c2) →
      (getRealtimePrice (Except.ok rows2) c2).1 = none := by
  constructor
  · simpa [getRealtimePrice] using filter_code_head_eq rows c row hmem hcode huniq
  · intro rows2 c2 h2
    simp [getRealtimePrice, filter_code_eq_nil rows2 c2 h2]

/-- The Scenario A snapshot row for identifier 600519. -/
def maotaiRow : QuoteRow :=
  ⟨"600519", "贵州茅台", 1700, 10, 59/100, 1705, 1690, 50000, 85000000000⟩

/-- Witness for `c3_fetch_quote` on the Scenario A snapshot: the 600519 row is
returned exactly, and the absent identifier 999999 yields NotFound. -/
theorem c3_fetch_quote_witness :
    (getRealtimePrice (Except.ok [maotaiRow]) "600519").1 = some maotaiRow ∧
    (getRealtimePrice (Except.ok [maotaiRow]) "999999").1 = none := by
  have h := c3_fetch_quote [maotaiRow] "600519" maotaiRow (by simp) rfl
    (by intro r hr _; simpa using hr)
  refine ⟨h.1, h.2 [maotaiRow] "999999" ?_⟩
  intro r hr
  have : r = maotaiRow := by simpa using hr
  subst this
  decide

/-! ### Claim C4 -/

/-- C4: when the provider call inside `get_history_data` raises, the function
returns the FetchFailed value `None` (together with an error message) — not an
empty sequence, and not any bar sequence at all; the function is total, so no
exception propagates to the orchestration layer. -/
theorem c4_history_fetch_failed (e : String) :
    getHistoryData (Except.error e) = (none, [Effect.errorMsg e]) ∧
    (getHistoryData (Except.error e)).1 ≠ some [] ∧
    ∀ bars : List Bar, (getHistoryData (Except.error e)).1 ≠ some bars := by
  refine ⟨rfl, by simp [getHistoryData], ?_⟩
  intro bars
  simp [getHistoryData]

/-- Witness for `c4_history_fetch_failed` at a concrete raising provider. -/
theorem c4_history_fetch_failed_witness :
    getHistoryData (Except.error "timeout") = (none, [Effect.errorMsg "timeout"]) ∧
    (getHistoryData (Except.error "timeout")).1 ≠ some [] :=
  ⟨(c4_history_fetch_failed "timeout").1, (c4_history_fetch_failed "timeout").2.1⟩

/-! ### Claim C5 -/

/-- C5: a successful fetch with zero bars returns the empty sequence (a
success value), a failed fetch returns the distinct FetchFailed value `None`,
and the two returned values are never equal, so the caller can always tell
them apart. -/
theorem c5_empty_vs_failed :
    getHistoryData (Except.ok ([] : List RawBar)) = (some [], []) ∧
    (∀ e, (getHistoryData (Except.error e)).1 = none) ∧
    ∀ e, (getHistoryData (Except.ok ([] : List RawBar))).1 ≠
      (getHistoryData (Except.error e)).1 := by
  refine ⟨rfl, fun e => rfl, fun e => ?_⟩
  simp [getHistoryData, parseAll]

/-- Witness for `c5_empty_vs_failed` at a concrete failure message. -/
theorem c5_empty_vs_failed_witness :
    getHistoryData (Except.ok ([] : List RawBar)) = (some [], []) ∧
    (getHistoryData (Except.error "down")).1 = none ∧
    (getHistoryData (Except.ok ([] : List RawBar))).1 ≠
      (getHistoryData (Except.error "down")).1 :=
  ⟨c5_empty_vs_failed.1, c5_empty_vs_failed.2.1 "down", c5_empty_vs_failed.2.2 "down"⟩

/-! ### Claim C6 -/

/-- C6: the rename at lines 46-47 is a pure relabelling — every row (hence
every cell value) is unchanged, the columns are relabelled pointwise through
the rename mapping, every label outside the six provider labels maps to
itself, and a column whose label is outside the six keeps its label at its
position. -/
theorem c6_rename_pure {α : Type} (df : DataFrame α) :
    (renameColumns df).rows = df.rows ∧
    (renameColumns df).cols = df.cols.map renameMap ∧
    (∀ k, k ∉ renamedLabels → renameMap k = k) ∧
    (∀ i k, df.cols.get? i = some k → k ∉ renamedLabels →
      (renameColumns df).cols.get? i = some k) := by
  refine ⟨rfl, rfl, ?_, ?_⟩
  · intro k hk
    simp only [renamedLabels, List.mem_cons, List.not_mem_nil, or_false] at hk
    push_neg at hk
    obtain ⟨h1, h2, h3, h4, h5, h6⟩ := hk
    simp [renameMap, h1, h2, h3, h4, h5, h6]
  · intro i k hik hk
    have hmap : renameMap k = k := by
      simp only [renamedLabels, List.mem_cons, List.not_mem_nil, or_false] at hk
      push_neg at hk
      obtain ⟨h1, h2, h3, h4, h5, h6⟩ := hk
      simp [renameMap, h1, h2, h3, h4, h5, h6]
    show (df.cols.map renameMap).get? i = some k
    rw [List.get?_map, hik]
    simpa using hmap

/-- Witness for `c6_rename_pure` on a concrete two-column table with one
renamed and one untouched column. -/
theorem c6_rename_pure_witness :
    (renameColumns (⟨["日期", "换手率"], [[(1 : ℚ), 2]]⟩ : DataFrame ℚ)).rows
      = [[(1 : ℚ), 2]] ∧
    renameMap "换手率" = "换手率" ∧
    (renameColumns (⟨["日期", "换手率"], [[(1 : ℚ), 2]]⟩ : DataFrame ℚ)).cols.get? 1
      = some "换手率" :=
  ⟨(c6_rename_pure (⟨["日期", "换手率"], [[(1 : ℚ), 2]]⟩ : DataFrame ℚ)).1,
   (c6_rename_pure (⟨["日期", "换手率"], [[(1 : ℚ), 2]]⟩ : DataFrame ℚ)).2.2.1
     "换手率" (by decide),
   (c6_rename_pure (⟨["日期", "换手率"], [[(1 : ℚ), 2]]⟩ : DataFrame ℚ)).2.2.2
     1 "换手率" rfl (by decide)⟩

/-! ### Claim C9 -/

/-- C9: when the quote lookup finds no matching row (NotFound), the page run
consists of exactly the quote-provider call followed by the warning message —
in particular the history provider is never invoked and neither chart nor
metrics are rendered. -/
theorem c9_notfound_no_history (c : String) (rows : List QuoteRow)
    (hp : Except String (List RawBar)) (hc : c ≠ "")
    (hnone : ∀ r ∈ rows, r.code ≠ c) :
    mainPage c (Except.ok rows) hp = [Effect.fetchQuoteCall, Effect.warningMsg] ∧
    Effect.fetchHistoryCall ∉ mainPage c (Except.ok rows) hp ∧
    Effect.chartRender ∉ mainPage c (Except.ok rows) hp ∧
    Effect.metricsRender ∉ mainPage c (Except.ok rows) hp := by
  have hq : getRealtimePrice (Except.ok rows) c = (none, []) := by
    simp [getRealtimePrice, filter_code_eq_nil rows c hnone]
  have hmain : mainPage c (Except.ok rows) hp
      = [Effect.fetchQuoteCall, Effect.warningMsg] := by
    simp [mainPage, hc, hq]
  refine ⟨hmain, ?_, ?_, ?_⟩ <;> rw [hmain] <;> decide

/-- Witness for `c9_notfound_no_history`: identifier 999999 against the
Scenario A snapshot, with an arbitrary concrete history provider. -/
theorem c9_notfound_no_history_witness :
    mainPage "999999" (Except.ok [maotaiRow]) (Except.ok [])
      = [Effect.fetchQuoteCall, Effect.warningMsg] ∧
    Effect.fetchHistoryCall ∉ mainPage "999999" (Except.ok [maotaiRow]) (Except.ok []) ∧
    Effect.chartRender ∉ mainPage "999999" (Except.ok [maotaiRow]) (Except.ok []) ∧
    Effect.metricsRender ∉ mainPage "999999" (Except.ok [maotaiRow]) (Except.ok []) := by
  refine c9_notfound_no_history "999999" [maotaiRow] (Except.ok []) (by decide) ?_
  intro r hr
  have h2 : r = maotaiRow := by simpa using hr
  subst h2
  decide

/-! ### Claim C10 -/

/-- C10: with the empty identifier the page run is exactly the informational
prompt — no quote-provider call and no history-provider call is made, whatever
the providers would have answered. -/
theorem c10_empty_input (qp : Except String (List QuoteRow))
    (hp : Except String (List RawBar)) :
    mainPage "" qp hp = [Effect.infoMsg] ∧
    Effect.fetchQuoteCall ∉ mainPage "" qp hp ∧
    Effect.fetchHistoryCall ∉ mainPage "" qp hp := by
  have hmain : mainPage "" qp hp = [Effect.infoMsg] := by
    simp [mainPage]
  refine ⟨hmain, ?_, ?_⟩ <;> rw [hmain] <;> decide

/-- Witness for `c10_empty_input` at concrete providers. -/
theorem c10_empty_input_witness :
    mainPage "" (Except.ok []) (Except.ok []) = [Effect.infoMsg] ∧
    Effect.fetchQuoteCall ∉ mainPage "" (Except.ok []) (Except.ok []) ∧
    Effect.fetchHistoryCall ∉ mainPage "" (Except.ok []) (Except.ok []) :=
  c10_empty_input (Except.ok []) (Except.ok [])

/-! ### Rolling-mean lemmas and claim C1 -/

/-- The rolling-mean walk emits exactly one output per input element. -/
theorem rollingMeanGo_length (w : ℕ) :
    ∀ (xs acc : List ℚ), (rollingMeanGo w acc xs).length = xs.length
  | [], _ => rfl
  | x :: rest, acc => by
    simpa [rollingMeanGo] using rollingMeanGo_length w rest (acc ++ [x])

/-- The rolling mean has the same length as the input series. -/
theorem rollingMean_length (w : ℕ) (xs : List ℚ) :
    (rollingMean w xs).length = xs.length :=
  rollingMeanGo_length w xs []

/-- Closed form of the rolling-mean walk: the entry at position `i` is the
mean of the trailing `w`-window of the prefix `acc ++ xs.take (i+1)`, present
exactly when that prefix has at least `w` elements. -/
theorem rollingMeanGo_get? (w : ℕ) :
    ∀ (xs acc : List ℚ) (i : ℕ), i < xs.length →
      (rollingMeanGo w acc xs).get? i =
        some (if w ≤ acc.length + i + 1
              then some ((lastWindow w (acc ++ xs.take (i + 1))).sum / (w : ℚ))
              else none)
  | [], _, i, hi => absurd hi (by simp)
  | x :: rest, acc, 0, _ => by
    simp [rollingMeanGo, List.length_append]
  | x :: rest, acc, i + 1, hi => by
    have hi' : i < rest.length := by
      simp only [List.length_cons] at hi; omega
    have ih := rollingMeanGo_get? w rest (acc ++ [x]) i hi'
    have hstep : (rollingMeanGo w acc (x :: rest)).get? (i + 1)
        = (rollingMeanGo w (acc ++ [x]) rest).get? i := by
      simp [rollingMeanGo]
    have harg : (acc ++ [x]) ++ rest.take (i + 1)
        = acc ++ (x :: rest).take (i + 1 + 1) := by
      simp [List.append_assoc]
    have hlen : (acc ++ [x]).length + i + 1 = acc.length + (i + 1) + 1 := by
      simp only [List.length_append, List.length_cons, List.length_nil]
      omega
    rw [hstep, ih, harg, hlen]

/-- Closed form of `rollingMean`: present exactly when `w ≤ i + 1`, with the
trailing window taken from the length-`(i+1)` prefix. -/
theorem rollingMean_get? (w : ℕ) (xs : List ℚ) (i : ℕ) (hi : i < xs.length) :
    (rollingMean w xs).get? i =
      some (if w ≤ i + 1
            then some ((lastWindow w (xs.take (i + 1))).sum / (w : ℚ))
            else none) := by
  simpa using rollingMeanGo_get? w xs [] i hi

/-- The trailing window of the length-`(i+1)` prefix is the slice of positions
`i-w+1` through `i`. -/
theorem lastWindow_take (xs : List ℚ) (w i : ℕ) (hw : w ≤ i + 1)
    (hi : i < xs.length) :
    lastWindow w (xs.take (i + 1)) = (xs.drop (i + 1 - w)).take w := by
  unfold lastWindow
  rw [List.length_take]
  have hmin : min (i + 1) xs.length = i + 1 := by omega
  rw [hmin, List.drop_take]
  congr 1
  omega

/-- The slice of positions `i-w+1` through `i` has exactly `w` elements when
`w ≤ i + 1 ≤ length`. -/
theorem slice_length (xs : List ℚ) (w i : ℕ) (hw : w ≤ i + 1)
    (hi : i < xs.length) :
    ((xs.drop (i + 1 - w)).take w).length = w := by
  rw [List.length_take, List.length_drop]
  omega

/-- C1: for a window `w ∈ {5, 20}` and any close series, the rolling-mean
entry at position `i` is absent exactly when `i < w - 1`, and when `w - 1 ≤ i`
it is present and equals the arithmetic mean (sum over length) of the closes
at positions `i-w+1` through `i`, a window of exactly `w` closes — no
look-ahead, no wraparound. -/
theorem c1_moving_average (closes : List ℚ) (w i : ℕ) (hw : w = 5 ∨ w = 20)
    (hi : i < closes.length) :
    ((rollingMean w closes).get? i = some none ↔ i < w - 1) ∧
    (w - 1 ≤ i →
      (rollingMean w closes).get? i = some (some (specWindowMean closes w i)) ∧
      ((closes.drop (i + 1 - w)).take w).length = w) := by
  have hw1 : 1 ≤ w := by rcases hw with h | h <;> omega
  rw [rollingMean_get? w closes i hi]
  constructor
  · constructor
    · intro h
      by_contra hlt
      have hcond : w ≤ i + 1 := by omega
      simp [hcond] at h
    · intro h
      have hcond : ¬ w ≤ i + 1 := by omega
      simp [hcond]
  · intro hge
    have hcond : w ≤ i + 1 := by omega
    have hlen := slice_length closes w i hcond hi
    refine ⟨?_, hlen⟩
    rw [if_pos hcond, lastWindow_take closes w i hcond hi]
    unfold specWindowMean
    rw [hlen]

/-- Witness for `c1_moving_average` on the Scenario C series
`[10, 11, 12, 13, 14, 15, 16]` at window 5: present and equal to the window
mean at index 4, absent at index 2. -/
theorem c1_moving_average_witness :
    (rollingMean 5 [10, 11, 12, 13, 14, 15, 16]).get? 4
      = some (some (specWindowMean [10, 11, 12, 13, 14, 15, 16] 5 4)) ∧
    (rollingMean 5 [10, 11, 12, 13, 14, 15, 16]).get? 2 = some none :=
  ⟨((c1_moving_average [10, 11, 12, 13, 14, 15, 16] 5 4 (Or.inl rfl)
      (by decide)).2 (by decide)).1,
   (c1_moving_average [10, 11, 12, 13, 14, 15, 16] 5 2 (Or.inl rfl)
      (by decide)).1.mpr (by decide)⟩

/-! ### Normalization lemmas and claim C7 -/

/-- A successful per-bar parse copies every numeric field and stores the
parsed date. -/
theorem parseRawBar_fields (r : RawBar) (b : Bar) (h : parseRawBar r = some b) :
    b.Open = r.rawOpen ∧ b.Close = r.rawClose ∧ b.High = r.rawHigh ∧
    b.Low = r.rawLow ∧ b.Volume = r.rawVolume ∧
    parseDate r.rawDate = some b.Date := by
  unfold parseRawBar at h
  cases hd : parseDate r.rawDate with
  | none => rw [hd] at h; cases h
  | some d =>
    rw [hd] at h
    injection h with h
    subst h
    exact ⟨rfl, rfl, rfl, rfl, rfl, rfl⟩

/-- A successful column parse is positional: same length, and the bar at
output position `i` is the parse of the raw bar at input position `i`. -/
theorem parseAll_get? :
    ∀ (raws : List RawBar) (bars : List Bar), parseAll raws = some bars →
      bars.length = raws.length ∧
      ∀ i raw, raws.get? i = some raw →
        ∃ b, bars.get? i = some b ∧ parseRawBar raw = some b
  | [], bars, h => by
    simp only [parseAll] at h
    injection h with h
    subst h
    exact ⟨rfl, by intro i raw hi; simp at hi⟩
  | r :: rest, bars, h => by
    cases hr : parseRawBar r with
    | none => simp [parseAll, hr] at h
    | some b =>
      cases hrest : parseAll rest with
      | none => simp [parseAll, hr, hrest] at h
      | some bs =>
        simp only [parseAll, hr, hrest] at h
        injection h with h
        subst h
        obtain ⟨hlen, hget⟩ := parseAll_get? rest bs hrest
        refine ⟨by simp [hlen], ?_⟩
        intro i raw hi
        cases i with
        | zero =>
          simp only [List.get?] at hi
          injection hi with hi
          subst hi
          exact ⟨b, rfl, hr⟩
        | succ n =>
          simp only [List.get?] at hi
          obtain ⟨b2, hb2, hp2⟩ := hget n raw hi
          exact ⟨b2, by simpa using hb2, hp2⟩

/-- Positional description of `List.zip`. -/
theorem zip_get? {α β : Type} :
    ∀ (l1 : List α) (l2 : List β) (i : ℕ) (a : α) (b : β),
      l1.get? i = some a → l2.get? i = some b →
      (l1.zip l2).get? i = some (a, b)
  | [], _, i, a, b, h1, _ => by simp at h1
  | _ :: _, [], i, a, b, _, h2 => by simp at h2
  | x :: t1, y :: t2, 0, a, b, h1, h2 => by
    simp at h1 h2
    simp [List.zip_cons_cons, h1, h2]
  | x :: t1, y :: t2, i + 1, a, b, h1, h2 => by
    simp only [List.get?] at h1 h2
    simpa [List.zip_cons_cons] using zip_get? t1 t2 i a b h1 h2

/-- A list has an entry at every position below its length. -/
theorem get?_isSome_of_lt {α : Type} (l : List α) (i : ℕ) (h : i < l.length) :
    ∃ v, l.get? i = some v :=
  ⟨l.get ⟨i, h⟩, List.get?_eq_get h⟩

/-- Attaching the moving averages keeps the length. -/
theorem addMovingAverages_length (bars : List Bar) :
    (addMovingAverages bars).length = bars.length := by
  simp [addMovingAverages, rollingMean_length]

/-- Attaching the moving averages is positional: the record at output
position `i` carries exactly the bar at input position `i`. -/
theorem addMovingAverages_get? (bars : List Bar) (i : ℕ) (b : Bar)
    (hb : bars.get? i = some b) :
    ∃ m : BarMA, (addMovingAverages bars).get? i = some m ∧ m.bar = b := by
  have hi : i < bars.length := by
    by_contra hge
    rw [List.get?_eq_none.mpr (by omega)] at hb
    cases hb
  have h5 : i < (rollingMean 5 (bars.map Bar.Close)).length := by
    rw [rollingMean_length, List.length_map]; exact hi
  have h20 : i < (rollingMean 20 (bars.map Bar.Close)).length := by
    rw [rollingMean_length, List.length_map]; exact hi
  obtain ⟨v5, hv5⟩ := get?_isSome_of_lt _ i h5
  obtain ⟨v20, hv20⟩ := get?_isSome_of_lt _ i h20
  have hz1 := zip_get? (rollingMean 5 (bars.map Bar.Close))
    (rollingMean 20 (bars.map Bar.Close)) i v5 v20 hv5 hv20
  have hz2 := zip_get? bars _ i b (v5, v20) hb hz1
  refine ⟨⟨b, v5, v20⟩, ?_, rfl⟩
  simp only [addMovingAverages]
  rw [List.get?_map, hz2]
  rfl

/-- C7: normalization preserves row order — when `get_history_data` succeeds,
the output has the same length as the provider's raw sequence, and the bar at
output position `i` (before and after attaching the moving-average fields) is
exactly the renamed, date-parsed raw bar at input position `i`. -/
theorem c7_order_preserved (raws : List RawBar) (bars : List Bar)
    (h : (getHistoryData (Except.ok raws)).1 = some bars) :
    bars.length = raws.length ∧
    (addMovingAverages bars).length = raws.length ∧
    ∀ i raw, raws.get? i = some raw →
      ∃ b, bars.get? i = some b ∧
        b.Open = raw.rawOpen ∧ b.Close = raw.rawClose ∧ b.High = raw.rawHigh ∧
        b.Low = raw.rawLow ∧ b.Volume = raw.rawVolume ∧
        parseDate raw.rawDate = some b.Date ∧
        ∃ m, (addMovingAverages bars).get? i = some m ∧ m.bar = b := by
  have hall : parseAll raws = some bars := by
    cases hp : parseAll raws with
    | none => simp [getHistoryData, hp] at h
    | some bs =>
      simp only [getHistoryData, hp] at h
      injection h with h
      subst h
      rfl
  obtain ⟨hlen, hget⟩ := parseAll_get? raws bars hall
  refine ⟨hlen, by rw [addMovingAverages_length, hlen], ?_⟩
  intro i raw hi
  obtain ⟨b, hb, hpb⟩ := hget i raw hi
  obtain ⟨ho, hc, hh, hl, hv, hd⟩ := parseRawBar_fields raw b hpb
  obtain ⟨m, hm, hmb⟩ := addMovingAverages_get? bars i b hb
  exact ⟨b, hb, ho, hc, hh, hl, hv, hd, m, hm, hmb⟩

/-- A concrete raw provider bar with an ISO date string. -/
def rawBar1 : RawBar := ⟨"2024-01-02", 1, 2, 3, 4, 5⟩

/-- The normalized form of `rawBar1`. -/
def bar1 : Bar := ⟨⟨2024, 1, 2⟩, 1, 2, 3, 4, 5⟩

/-- Witness for `c7_order_preserved` on a one-bar fetch: position 0 of the
output is the renamed, date-parsed raw bar at position 0. -/
theorem c7_order_preserved_witness :
    ∃ b, [bar1].get? 0 = some b ∧
      b.Open = rawBar1.rawOpen ∧ b.Close = rawBar1.rawClose ∧
      b.High = rawBar1.rawHigh ∧ b.Low = rawBar1.rawLow ∧
      b.Volume = rawBar1.rawVolume ∧
      parseDate rawBar1.rawDate = some b.Date ∧
      ∃ m, (addMovingAverages [bar1]).get? 0 = some m ∧ m.bar = b :=
  (c7_order_preserved [rawBar1] [bar1] (by rfl)).2.2 0 rawBar1 rfl

/-! ### Calendar lemmas and claim C8 -/

/-- Every month has at least one day. -/
theorem daysInMonth_pos (y m : ℕ) : 1 ≤ daysInMonth y m := by
  unfold daysInMonth
  split_ifs <;> omega

/-- No month has more than 31 days. -/
theorem daysInMonth_le_31 (y m : ℕ) : daysInMonth y m ≤ 31 := by
  unfold daysInMonth
  split_ifs <;> omega

/-- Going back one day preserves calendar validity. -/
theorem validDate_prevDay (d : Date) (h : validDate d) : validDate (prevDay d) := by
  obtain ⟨h1, h2, h3, h4⟩ := h
  unfold prevDay validDate
  split_ifs with hd hm <;> dsimp only
  · exact ⟨h1, h2, by omega, by omega⟩
  · exact ⟨by omega, by omega, daysInMonth_pos d.year (d.month - 1), le_refl _⟩
  · refine ⟨by omega, by omega, by omega, ?_⟩
    simp [daysInMonth]

/-- Going back one day never increases the year. -/
theorem prevDay_year_le (d : Date) : (prevDay d).year ≤ d.year := by
  unfold prevDay
  split_ifs
  · exact le_refl _
  · exact le_refl _
  · exact Nat.sub_le _ _

/-- Going back one day strictly decreases the compact date numeral (for a
valid date with a positive year). -/
theorem encodeDate_prevDay_lt (d : Date) (h : validDate d) (hy : 1 ≤ d.year) :
    encodeDate (prevDay d) < encodeDate d := by
  obtain ⟨h1, h2, h3, h4⟩ := h
  have hdim31 : daysInMonth d.year (d.month - 1) ≤ 31 := daysInMonth_le_31 _ _
  unfold prevDay encodeDate
  split_ifs with hd hm <;> dsimp only <;> omega

/-- Stepping forward undoes stepping backward on valid dates with a positive
year. -/
theorem nextDay_prevDay (d : Date) (h : validDate d) (hy : 1 ≤ d.year) :
    nextDay (prevDay d) = d := by
  obtain ⟨y, m, day⟩ := d
  have h1 : 1 ≤ m := h.1
  have h2 : m ≤ 12 := h.2.1
  have h3 : 1 ≤ day := h.2.2.1
  have h4 : day ≤ daysInMonth y m := h.2.2.2
  have hy' : 1 ≤ y := hy
  by_cases hd : 1 < day
  · have hprev : prevDay ⟨y, m, day⟩ = ⟨y, m, day - 1⟩ := by
      unfold prevDay
      rw [if_pos hd]
    rw [hprev]
    unfold nextDay
    dsimp only
    rw [if_pos (by omega : day - 1 < daysInMonth y m)]
    simp only [Date.mk.injEq]
    exact ⟨trivial, trivial, by omega⟩
  · by_cases hm : 1 < m
    · have hprev : prevDay ⟨y, m, day⟩ = ⟨y, m - 1, daysInMonth y (m - 1)⟩ := by
        unfold prevDay
        rw [if_neg hd, if_pos hm]
      rw [hprev]
      unfold nextDay
      dsimp only
      rw [if_neg (lt_irrefl _), if_pos (by omega : m - 1 < 12)]
      simp only [Date.mk.injEq]
      exact ⟨trivial, by omega, by omega⟩
    · have hprev : prevDay ⟨y, m, day⟩ = ⟨y - 1, 12, 31⟩ := by
        unfold prevDay
        rw [if_neg hd, if_neg hm]
      have hdim12 : daysInMonth (y - 1) 12 = 31 := by simp [daysInMonth]
      rw [hprev]
      unfold nextDay
      dsimp only
      rw [hdim12, if_neg (lt_irrefl _), if_neg (by omega : ¬(12 : ℕ) < 12)]
      simp only [Date.mk.injEq]
      exact ⟨by omega, by omega, by omega⟩

/-- Iterating `prevDay` keeps validity, never increases the date numeral or
the year, and is undone exactly by iterating `nextDay` — provided the final
year is still positive. -/
theorem prevDay_iterate_facts (N : ℕ) (d : Date) (h : validDate d) :
    1 ≤ ((prevDay)^[N] d).year →
    validDate ((prevDay)^[N] d) ∧
    encodeDate ((prevDay)^[N] d) ≤ encodeDate d ∧
    ((prevDay)^[N] d).year ≤ d.year ∧
    (nextDay)^[N] ((prevDay)^[N] d) = d := by
  induction N with
  | zero => exact fun _ => ⟨h, le_refl _, le_refl _, rfl⟩
  | succ n ih =>
    intro hy
    rw [Function.iterate_succ_apply'] at hy
    have hyn : 1 ≤ ((prevDay)^[n] d).year := le_trans hy (prevDay_year_le _)
    obtain ⟨hv, henc, hyle, hrt⟩ := ih hyn
    refine ⟨?_, ?_, ?_, ?_⟩
    · rw [Function.iterate_succ_apply']
      exact validDate_prevDay _ hv
    · rw [Function.iterate_succ_apply']
      exact le_trans (le_of_lt (encodeDate_prevDay_lt _ hv hyn)) henc
    · rw [Function.iterate_succ_apply']
      exact le_trans (prevDay_year_le _) hyle
    · rw [Function.iterate_succ_apply, Function.iterate_succ_apply']
      rw [nextDay_prevDay _ hv hyn]
      exact hrt

/-- A valid date with a year up to 9999 encodes below 10^8. -/
theorem encodeDate_lt (d : Date) (h : validDate d) (hy : d.year ≤ 9999) :
    encodeDate d < 100000000 := by
  obtain ⟨h1, h2, h3, h4⟩ := h
  have := daysInMonth_le_31 d.year d.month
  unfold encodeDate
  omega

/-- A date with a year of at least 1000 encodes at or above 10^7. -/
theorem encodeDate_ge (d : Date) (hy : 1000 ≤ d.year) :
    10000000 ≤ encodeDate d := by
  unfold encodeDate
  omega

/-- C8: for every fixed `now` and lookback `daysBack`, the derived start date
is exactly `daysBack` calendar days before `now` (iterating `nextDay` that
many times from it returns `now`), both endpoints are 8-digit compact date
numerals (in `[10^7, 10^8)`), and `start_dt ≤ end_dt` always holds. The year
hypotheses pin both endpoints inside the 4-digit-year range that `%Y%m%d`
renders with 8 digits. -/
theorem c8_date_range (now : Date) (daysBack : ℕ) (hv : validDate now)
    (hstart : 1000 ≤ ((prevDay)^[daysBack] now).year) (hend : now.year ≤ 9999) :
    startDt now daysBack ≤ endDt now ∧
    10000000 ≤ startDt now daysBack ∧ startDt now daysBack < 100000000 ∧
    10000000 ≤ endDt now ∧ endDt now < 100000000 ∧
    (nextDay)^[daysBack] ((prevDay)^[daysBack] now) = now := by
  have hy1 : 1 ≤ ((prevDay)^[daysBack] now).year := by omega
  obtain ⟨hvs, henc, hyle, hrt⟩ := prevDay_iterate_facts daysBack now hv hy1
  refine ⟨henc, ?_, ?_, ?_, ?_, hrt⟩
  · exact encodeDate_ge _ hstart
  · exact encodeDate_lt _ hvs (le_trans hyle hend)
  · exact encodeDate_ge _ (le_trans hstart hyle)
  · exact encodeDate_lt _ hv hend

/-- Witness for `c8_date_range` at `now` = 2026-10-12 with a 30-day
lookback. -/
theorem c8_date_range_witness :
    startDt ⟨2026, 10, 12⟩ 30 ≤ endDt ⟨2026, 10, 12⟩ ∧
    10000000 ≤ startDt ⟨2026, 10, 12⟩ 30 ∧
    startDt ⟨2026, 10, 12⟩ 30 < 100000000 ∧
    10000000 ≤ endDt ⟨2026, 10, 12⟩ ∧ endDt ⟨2026, 10, 12⟩ < 100000000 ∧
    (nextDay)^[30] ((prevDay)^[30] ⟨2026, 10, 12⟩) = ⟨2026, 10, 12⟩ :=
  c8_date_range ⟨2026, 10, 12⟩ 30 (by decide) (by decide) (by decide)

end GiminiStock
